import Mathlib

/-!
Verification of the radial-velocity cross-correlation pipeline in
`radvel/rv.py` (sdss/doppler).  Samples of a spectrum or correlation
sequence are modelled as `Option ℚ`: `some a` is a finite IEEE value of
(exact) magnitude `a`, `none` is a non-finite value (NaN or Inf), which is
what `np.isfinite` distinguishes.  Real-valued normalisations (square
roots, powers of ten, logarithms) live in `ℝ`.
-/

set_option maxHeartbeats 1000000

namespace Radvel

/-- A sample value: `some a` = finite, `none` = non-finite (NaN/Inf). -/
abbrev Val := Option ℚ

/-- The finite entries of a sequence, in order. -/
def finiteVals (x : List Val) : List ℚ := x.filterMap id

/-- Number of finite entries (`np.sum(np.isfinite(x))`). -/
def ngood (x : List Val) : ℕ := (finiteVals x).length

/-- `np.nanmean(x)`: mean over the finite entries (junk value `0` when
there are none, in which case every use of it below is on an empty set). -/
def nanmean (x : List Val) : ℚ := (finiteVals x).sum / (ngood x : ℚ)

/-- The working deviation array of `ccorrelate`: `xd = x.copy() - xmn`
followed by `xd[~isfinite(x)] = 0.0`.  With `nomean` the mean subtraction
is skipped (`xd = x.copy()`), non-finite entries are still zeroed. -/
def devs (nomean : Bool) (x : List Val) : List ℚ :=
  let m : ℚ := if nomean then 0 else nanmean x
  x.map (fun v => match v with
    | some a => a - m
    | none => 0)

/-- Finite mask `fx = np.isfinite(x)`. -/
def fmask (x : List Val) : List Bool := x.map Option.isSome

/-- The raw per-lag sum of `ccorrelate`:
for `lag > 0` it is `np.sum(xd[0:nx-lag] * yd[lag:])`, otherwise
`np.sum(yd[0:nx+lag] * xd[-lag:])` (the roles reverse at negative lags). -/
def crossSum (xd yd : List ℚ) (l : ℤ) : ℚ :=
  if 0 < l then
    ∑ i in Finset.range (xd.length - l.toNat), xd.getD i 0 * yd.getD (i + l.toNat) 0
  else
    ∑ i in Finset.range (xd.length - (-l).toNat), yd.getD i 0 * xd.getD (i + (-l).toNat) 0

/-- The per-lag count of jointly finite pairs:
for `lag > 0` it is `np.sum(fx[0:nx-lag] * fy[lag:])`, otherwise
`np.sum(fy[0:nx+lag] * fx[-lag:])`. -/
def numSum (fx fy : List Bool) (l : ℤ) : ℕ :=
  if 0 < l then
    ∑ i in Finset.range (fx.length - l.toNat),
      (if fx.getD i false && fy.getD (i + l.toNat) false then 1 else 0)
  else
    ∑ i in Finset.range (fx.length - (-l).toNat),
      (if fy.getD i false && fx.getD (i + (-l).toNat) false then 1 else 0)

/-- `np.max(num)` over the per-lag counts (the code requires a non-empty
lag list; on `[]` this yields `0`). -/
def maxNum (ns : List ℕ) : ℕ := ns.foldr max 0

/-- `np.sum(xd[fx]**2)`: sum of squared deviations over finite samples. -/
def ssqDevs (nomean : Bool) (x : List Val) : ℚ :=
  ∑ i in Finset.range x.length,
    (if (fmask x).getD i false then ((devs nomean x).getD i 0) ^ 2 else 0)

open Classical in
/-- The guarded RMS factor of `ccorrelate`:
`rms = np.sqrt(np.sum(xd[fx]**2))` only when `ngd > 2`, else `1.0`, and
`rms = 1.0` when it comes out `0.0`. -/
noncomputable def rmsFactor (ngd : ℕ) (ssq : ℚ) : ℝ :=
  let r : ℝ := if 2 < ngd then Real.sqrt (ssq : ℝ) else 1
  if r = 0 then 1 else r

/-- `ccorrelate(x, y, lag, covariance=covariance, nomean=nomean)` (the main
output; the optional `yerr` second output is independent of it): remove
means and zero non-finite entries, accumulate per-lag raw sums and
finite-pair counts, multiply the whole array by `np.max(num)`, divide each
entry with a positive count by its own count, then divide by `nx`
(covariance) or by the guarded `rmsx*rmsy` (correlation). -/
noncomputable def ccorrelate (x y : List Val) (lags : List ℤ)
    (covariance nomean : Bool) : List ℝ :=
  let xd := devs nomean x
  let yd := devs nomean y
  let fx := fmask x
  let fy := fmask y
  let cross := lags.map (fun l => crossSum xd yd l)
  let num := lags.map (fun l => numSum fx fy l)
  let mx := maxNum num
  let cross1 := cross.map (fun c => c * (mx : ℚ))
  let cross2 := List.zipWith (fun (c : ℚ) (n : ℕ) => if 0 < n then c / (n : ℚ) else c) cross1 num
  let rmsx := rmsFactor (ngood x) (ssqDevs nomean x)
  let rmsy := rmsFactor (ngood y) (ssqDevs nomean y)
  if covariance then cross2.map (fun (c : ℚ) => (c : ℝ) / (x.length : ℝ))
  else cross2.map (fun (c : ℚ) => (c : ℝ) / (rmsx * rmsy))

/-- `ccorrelate` with its two explicit `ValueError` raises: mismatched
lengths, and fewer than 2 elements. -/
noncomputable def ccorrelateE (x y : List Val) (lags : List ℤ)
    (covariance nomean : Bool) : Except String (List ℝ) :=
  if x.length ≠ y.length then
    .error "X and Y arrays must have the same number of elements."
  else if x.length < 2 then
    .error "X and Y arrays must contain 2 or more elements."
  else
    .ok (ccorrelate x y lags covariance nomean)

/-- The correlator as claim C1 words it: identical to `ccorrelate` except
that in correlation mode the result is divided by
`sqrt(sum(x_dev^2)) * sqrt(sum(y_dev^2))` unconditionally — no `ngood > 2`
guard and no substitution of `1.0` for a zero factor. -/
noncomputable def ccorrelateClaimC1 (x y : List Val) (lags : List ℤ)
    (covariance nomean : Bool) : List ℝ :=
  let xd := devs nomean x
  let yd := devs nomean y
  let fx := fmask x
  let fy := fmask y
  let cross := lags.map (fun l => crossSum xd yd l)
  let num := lags.map (fun l => numSum fx fy l)
  let mx := maxNum num
  let cross1 := cross.map (fun c => c * (mx : ℚ))
  let cross2 := List.zipWith (fun (c : ℚ) (n : ℕ) => if 0 < n then c / (n : ℚ) else c) cross1 num
  let rmsx := Real.sqrt ((ssqDevs nomean x : ℚ) : ℝ)
  let rmsy := Real.sqrt ((ssqDevs nomean y : ℚ) : ℝ)
  if covariance then cross2.map (fun (c : ℚ) => (c : ℝ) / (x.length : ℝ))
  else cross2.map (fun (c : ℚ) => (c : ℝ) / (rmsx * rmsy))

/-! Generic list-indexing helpers. -/

theorem getD_map_of_lt {α β : Type} (f : α → β) (l : List α) (k : ℕ) (d : β) (d0 : α)
    (hk : k < l.length) : (l.map f).getD k d = f (l.getD k d0) := by
  induction l generalizing k with
  | nil => exact absurd hk (by simp)
  | cons a t ih =>
    cases k with
    | zero => rfl
    | succ n => simpa using ih n (by simpa using hk)

theorem getD_zipWith_of_lt {α β γ : Type} (f : α → β → γ) (as : List α) (bs : List β)
    (k : ℕ) (d : γ) (da : α) (db : β) (ha : k < as.length) (hb : k < bs.length) :
    (List.zipWith f as bs).getD k d = f (as.getD k da) (bs.getD k db) := by
  induction as generalizing bs k with
  | nil => exact absurd ha (by simp)
  | cons a t ih =>
    cases bs with
    | nil => exact absurd hb (by simp)
    | cons b u =>
      cases k with
      | zero => rfl
      | succ n => simpa using ih u n (by simpa using ha) (by simpa using hb)

/-- C1: the value of `ccorrelate` at lag index `k`, in closed form.  The raw
lag sum is multiplied by the maximum finite-pair count over all lags,
divided by the lag's own count when positive, then divided by `n`
(covariance) or by the *guarded* RMS product (correlation): each factor is
`sqrt(sum of squared finite deviations)` only when its sequence has more
than 2 finite entries and that square root is nonzero, and `1.0`
otherwise.  (The unguarded division claimed by the spec fails; see the
counterexample.) -/
theorem ccorrelate_lag_value (x y : List Val) (lags : List ℤ)
    (covariance nomean : Bool) (k : ℕ)
    (h2 : 2 ≤ x.length) (hxy : x.length = y.length) (hk : k < lags.length) :
    (ccorrelate x y lags covariance nomean).getD k 0 =
      (let l := lags.getD k 0
       let c := crossSum (devs nomean x) (devs nomean y) l
       let m := maxNum (lags.map (fun j => numSum (fmask x) (fmask y) j))
       let nk := numSum (fmask x) (fmask y) l
       let cN : ℚ := if 0 < nk then c * (m : ℚ) / (nk : ℚ) else c * (m : ℚ)
       if covariance then (cN : ℝ) / (x.length : ℝ)
       else (cN : ℝ) /
         (rmsFactor (ngood x) (ssqDevs nomean x) *
          rmsFactor (ngood y) (ssqDevs nomean y))) := by
  unfold ccorrelate
  have hk1 : k < (lags.map (fun l => crossSum (devs nomean x) (devs nomean y) l)).length := by
    simpa using hk
  have hk2 : k < (lags.map (fun l => numSum (fmask x) (fmask y) l)).length := by
    simpa using hk
  have hk1m : k < ((lags.map (fun l => crossSum (devs nomean x) (devs nomean y) l)).map
      (fun c => c * ((maxNum (lags.map (fun l => numSum (fmask x) (fmask y) l)) : ℕ) : ℚ))).length := by
    simpa using hk
  have hkz : k < (List.zipWith (fun (c : ℚ) (n : ℕ) => if 0 < n then c / (n : ℚ) else c)
      ((lags.map (fun l => crossSum (devs nomean x) (devs nomean y) l)).map
        (fun c => c * ((maxNum (lags.map (fun l => numSum (fmask x) (fmask y) l)) : ℕ) : ℚ)))
      (lags.map (fun l => numSum (fmask x) (fmask y) l))).length := by
    simp only [List.length_zipWith, List.length_map]
    omega
  cases covariance with
  | false =>
    simp only [Bool.false_eq_true, if_false]
    rw [getD_map_of_lt _ _ k _ 0 hkz,
      getD_zipWith_of_lt _ _ _ k _ 0 0 hk1m hk2,
      getD_map_of_lt _ _ k _ 0 hk1,
      getD_map_of_lt _ _ k _ 0 hk,
      getD_map_of_lt _ _ k _ 0 hk]
  | true =>
    simp only [if_true]
    rw [getD_map_of_lt _ _ k _ 0 hkz,
      getD_zipWith_of_lt _ _ _ k _ 0 0 hk1m hk2,
      getD_map_of_lt _ _ k _ 0 hk1,
      getD_map_of_lt _ _ k _ 0 hk,
      getD_map_of_lt _ _ k _ 0 hk]

/-- C1 counterexample: on `x = y = [1.0, 2.0]` (length 2, all finite) at
lag 0 in correlation mode, the code returns `0.5` — the RMS guard replaces
both `sqrt(0.5)` factors by `1.0` because only 2 finite values are present
— while the claimed unguarded normalisation would return `1.0`. -/
theorem ccorrelate_c1_counterexample :
    ccorrelate [some 1, some 2] [some 1, some 2] [0] false false ≠
      ccorrelateClaimC1 [some 1, some 2] [some 1, some 2] [0] false false := by
  have hc : crossSum (devs false [some 1, some 2]) (devs false [some 1, some 2]) 0 = 1/2 := by
    norm_num [crossSum, devs, nanmean, finiteVals, ngood, Finset.sum_range_succ,
      Finset.sum_range_zero, List.getD_cons_zero, List.getD_cons_succ,
      List.filterMap_cons, List.filterMap_nil]
  have hn : numSum (fmask [some 1, some 2]) (fmask [some 1, some 2]) 0 = 2 := by decide
  have hg : ngood [some 1, some 2] = 2 := by decide
  have hs : ssqDevs false [some 1, some 2] = 1/2 := by
    norm_num [ssqDevs, fmask, devs, nanmean, finiteVals, ngood, Finset.sum_range_succ,
      Finset.sum_range_zero, List.getD_cons_zero, List.getD_cons_succ,
      List.filterMap_cons, List.filterMap_nil]
  have hrms : rmsFactor (ngood [some 1, some 2]) (ssqDevs false [some 1, some 2]) = 1 := by
    rw [hg, hs]
    unfold rmsFactor
    norm_num
  have hL : ccorrelate [some 1, some 2] [some 1, some 2] [0] false false = [(1 : ℝ)/2] := by
    simp [ccorrelate, hc, hn, hrms, maxNum]
  have hR : ccorrelateClaimC1 [some 1, some 2] [some 1, some 2] [0] false false = [(1 : ℝ)] := by
    have hinv : ((Real.sqrt 2)⁻¹ * (Real.sqrt 2)⁻¹) = (2 : ℝ)⁻¹ := by
      rw [← mul_inv, Real.mul_self_sqrt (by norm_num : (0 : ℝ) ≤ 2)]
    simp [ccorrelateClaimC1, hc, hn, hs, maxNum]
    norm_num [hinv]
  intro h
  rw [hL, hR] at h
  norm_num [List.cons.injEq] at h

/-- Concrete input arrays used by witness theorems. -/
def wx : List Val := [some 1, some 2, some 4]

/-- Concrete second input array used by witness theorems. -/
def wy : List Val := [some 2, some 1, some 4]

/-- Witness for `ccorrelate_lag_value` at `x = wx`, `y = wy`, `lags = [1]`,
`k = 0`, correlation mode, mean removal on. -/
theorem ccorrelate_lag_value_witness :
    2 ≤ wx.length ∧ wx.length = wy.length ∧ 0 < ([(1 : ℤ)] : List ℤ).length ∧
    (ccorrelate wx wy [1] false false).getD 0 0 =
      (let l := ([(1 : ℤ)] : List ℤ).getD 0 0
       let c := crossSum (devs false wx) (devs false wy) l
       let m := maxNum (([(1 : ℤ)] : List ℤ).map (fun j => numSum (fmask wx) (fmask wy) j))
       let nk := numSum (fmask wx) (fmask wy) l
       let cN : ℚ := if 0 < nk then c * (m : ℚ) / (nk : ℚ) else c * (m : ℚ)
       if (false : Bool) then (cN : ℝ) / (wx.length : ℝ)
       else (cN : ℝ) /
         (rmsFactor (ngood wx) (ssqDevs false wx) *
          rmsFactor (ngood wy) (ssqDevs false wy))) :=
  ⟨by decide, by decide, by decide,
    ccorrelate_lag_value wx wy [1] false false 0 (by decide) (by decide) (by decide)⟩

/-! Role-swap symmetry of the correlator (claim C7). -/

theorem crossSum_swap (xd yd : List ℚ) (l : ℤ) (hlen : xd.length = yd.length) :
    crossSum yd xd (-l) = crossSum xd yd l := by
  unfold crossSum
  rcases lt_trichotomy 0 l with hl | hl | hl
  · rw [if_neg (by omega), if_pos hl]
    simp only [neg_neg]
    rw [hlen]
  · subst hl
    rw [if_neg (by omega), if_neg (by omega)]
    simp only [neg_zero, Int.toNat_zero, add_zero, Nat.sub_zero]
    rw [hlen]
    exact Finset.sum_congr rfl (fun i _ => mul_comm _ _)
  · rw [if_pos (by omega), if_neg (by omega)]
    rw [hlen]

theorem numSum_swap (fx fy : List Bool) (l : ℤ) (hlen : fx.length = fy.length) :
    numSum fy fx (-l) = numSum fx fy l := by
  unfold numSum
  rcases lt_trichotomy 0 l with hl | hl | hl
  · rw [if_neg (by omega), if_pos hl]
    simp only [neg_neg]
    rw [hlen]
  · subst hl
    rw [if_neg (by omega), if_neg (by omega)]
    simp only [neg_zero, Int.toNat_zero, add_zero, Nat.sub_zero]
    rw [hlen]
    exact Finset.sum_congr rfl (fun i _ => by rw [Bool.and_comm])
  · rw [if_pos (by omega), if_neg (by omega)]
    rw [hlen]

/-- C7: role-swap antisymmetry.  For equal-length sequences and a valid
lag, mean-removed correlation-mode `ccorrelate(x, y, [l])` equals
`ccorrelate(y, x, [-l])` — exactly, in real arithmetic (hence within any
floating tolerance). -/
theorem ccorrelate_role_swap (x y : List Val) (l : ℤ)
    (h2 : 2 ≤ x.length) (hxy : x.length = y.length) (hl : l.natAbs ≤ x.length - 2) :
    ccorrelate x y [l] false false = ccorrelate y x [-l] false false := by
  have hdev : (devs false x).length = (devs false y).length := by
    simp [devs, hxy]
  have hfm : (fmask x).length = (fmask y).length := by
    simp [fmask, hxy]
  unfold ccorrelate
  simp only [List.map_cons, List.map_nil, List.zipWith_cons_cons, List.zipWith_nil_right,
    List.zipWith_nil_left, Bool.false_eq_true, if_false]
  rw [crossSum_swap (devs false x) (devs false y) l hdev,
    numSum_swap (fmask x) (fmask y) l hfm,
    mul_comm (rmsFactor (ngood y) (ssqDevs false y)) (rmsFactor (ngood x) (ssqDevs false x))]

/-- Witness for `ccorrelate_role_swap` at `x = wx`, `y = wy`, `l = 1`. -/
theorem ccorrelate_role_swap_witness :
    2 ≤ wx.length ∧ wx.length = wy.length ∧ (1 : ℤ).natAbs ≤ wx.length - 2 ∧
    ccorrelate wx wy [1] false false = ccorrelate wy wx [-1] false false :=
  ⟨by decide, by decide, by decide,
    ccorrelate_role_swap wx wy 1 (by decide) (by decide) (by decide)⟩

/-! Autocorrelation at lag 0 and the degenerate constant case (C6, C8). -/

theorem fmask_map_some_getD (xs : List ℚ) (i : ℕ) (hi : i < xs.length) :
    (fmask (xs.map some)).getD i false = true := by
  unfold fmask
  rw [getD_map_of_lt Option.isSome _ i false (some 0) (by simpa using hi),
    getD_map_of_lt some xs i (some 0) 0 hi]
  rfl

theorem devs_map_some_getD (xs : List ℚ) (i : ℕ) (hi : i < xs.length) :
    (devs false (xs.map some)).getD i 0 = xs.getD i 0 - nanmean (xs.map some) := by
  unfold devs
  simp only [Bool.false_eq_true, if_false]
  rw [getD_map_of_lt _ _ i 0 (some 0) (by simpa using hi),
    getD_map_of_lt some xs i (some 0) 0 hi]

theorem crossSum_self_lag0 (xs : List ℚ) :
    crossSum (devs false (xs.map some)) (devs false (xs.map some)) 0 =
      ssqDevs false (xs.map some) := by
  unfold crossSum ssqDevs
  rw [if_neg (by omega)]
  simp only [neg_zero, Int.toNat_zero, add_zero, Nat.sub_zero]
  have hlen : (devs false (xs.map some)).length = (xs.map some).length := by
    simp [devs]
  rw [hlen]
  refine Finset.sum_congr rfl (fun i hi => ?_)
  have hi' : i < xs.length := by simpa using Finset.mem_range.mp hi
  rw [fmask_map_some_getD xs i hi', if_pos rfl, sq]

theorem numSum_self_lag0 (xs : List ℚ) :
    numSum (fmask (xs.map some)) (fmask (xs.map some)) 0 = xs.length := by
  unfold numSum
  rw [if_neg (by omega)]
  simp only [neg_zero, Int.toNat_zero, add_zero, Nat.sub_zero]
  have hlen : (fmask (xs.map some)).length = xs.length := by simp [fmask]
  rw [hlen]
  calc ∑ i in Finset.range xs.length,
        (if (fmask (xs.map some)).getD i false && (fmask (xs.map some)).getD i false
         then 1 else 0)
      = ∑ _i in Finset.range xs.length, 1 := by
        refine Finset.sum_congr rfl (fun i hi => ?_)
        rw [fmask_map_some_getD xs i (Finset.mem_range.mp hi)]
        rfl
    _ = xs.length := by simp

theorem ssqDevs_nonneg (nomean : Bool) (x : List Val) : 0 ≤ ssqDevs nomean x := by
  refine Finset.sum_nonneg (fun i _ => ?_)
  split
  · positivity
  · exact le_refl 0

theorem ngood_map_some (xs : List ℚ) : ngood (xs.map some) = xs.length := by
  simp [ngood, finiteVals]

theorem rmsFactor_of_pos (n : ℕ) (s : ℚ) (hn : 2 < n) (hs : 0 < s) :
    rmsFactor n s = Real.sqrt (s : ℝ) := by
  have hs' : (0 : ℝ) < (s : ℝ) := by exact_mod_cast hs
  have hne : Real.sqrt (s : ℝ) ≠ 0 := ne_of_gt (Real.sqrt_pos.mpr hs')
  unfold rmsFactor
  simp only [if_pos hn]
  rw [if_neg hne]

theorem rmsFactor_ssq_zero (n : ℕ) : rmsFactor n 0 = 1 := by
  by_cases hn : 2 < n
  · simp [rmsFactor, hn, Real.sqrt_zero]
  · simp [rmsFactor, hn]

/-- C6 (amended): for a finite sequence of length at least 3 whose
mean-removed deviations are not all zero, mean-removed correlation-mode
autocorrelation at the single lag 0 is exactly 1 (hence within 1e-9 of
1.0).  Length 2 and constant sequences fall under the RMS guard and do not
return 1; see the counterexample. -/
theorem ccorrelate_auto_lag0 (xs : List ℚ) (h3 : 3 ≤ xs.length)
    (hS : ssqDevs false (xs.map some) ≠ 0) :
    ccorrelate (xs.map some) (xs.map some) [0] false false = [1] := by
  have hpos : 0 < ssqDevs false (xs.map some) :=
    lt_of_le_of_ne (ssqDevs_nonneg _ _) (Ne.symm hS)
  have hc := crossSum_self_lag0 xs
  have hn := numSum_self_lag0 xs
  unfold ccorrelate
  simp only [List.map_cons, List.map_nil, List.zipWith_cons_cons, List.zipWith_nil_left,
    Bool.false_eq_true, if_false]
  rw [hc, hn]
  have hmx : maxNum [xs.length] = xs.length := by simp [maxNum]
  rw [hmx, if_pos (show 0 < xs.length by omega)]
  have hnz : ((xs.length : ℚ)) ≠ 0 := Nat.cast_ne_zero.mpr (by omega)
  rw [mul_div_cancel_right₀ _ hnz]
  rw [ngood_map_some, rmsFactor_of_pos xs.length _ (by omega) hpos]
  have hcast : (0 : ℝ) ≤ ((ssqDevs false (xs.map some) : ℚ) : ℝ) := by
    exact_mod_cast ssqDevs_nonneg false (xs.map some)
  have hcastne : ((ssqDevs false (xs.map some) : ℚ) : ℝ) ≠ 0 := by
    exact_mod_cast hS
  rw [Real.mul_self_sqrt hcast, div_self hcastne]

/-- Witness for `ccorrelate_auto_lag0` at `xs = [1, 2, 4]`. -/
theorem ccorrelate_auto_lag0_witness :
    3 ≤ ([1, 2, 4] : List ℚ).length ∧
    ssqDevs false (([1, 2, 4] : List ℚ).map some) ≠ 0 ∧
    ccorrelate (([1, 2, 4] : List ℚ).map some) (([1, 2, 4] : List ℚ).map some) [0]
      false false = [1] :=
  ⟨by decide,
   by
    norm_num [ssqDevs, fmask, devs, nanmean, finiteVals, ngood, Finset.sum_range_succ,
      Finset.sum_range_zero, List.getD_cons_zero, List.getD_cons_succ,
      List.filterMap_cons, List.filterMap_nil],
   ccorrelate_auto_lag0 [1, 2, 4] (by decide)
    (by
      norm_num [ssqDevs, fmask, devs, nanmean, finiteVals, ngood, Finset.sum_range_succ,
        Finset.sum_range_zero, List.getD_cons_zero, List.getD_cons_succ,
        List.filterMap_cons, List.filterMap_nil])⟩

/-- C6 counterexample: the claim as stated (any finite sequence of length
at least 2) fails.  For `x = [0.0, 1.0]` (length 2) the RMS guard leaves
both factors at `1.0` and the autocorrelation at lag 0 is `0.5`; for the
constant `x = [1.0, 1.0, 1.0]` the deviations vanish and the result is
`0.0`.  Both are farther than 1e-9 from 1.0. -/
theorem ccorrelate_auto_counterexample :
    1/1000000000 <
      |(ccorrelate [some 0, some 1] [some 0, some 1] [0] false false).getD 0 0 - 1| ∧
    1/1000000000 <
      |(ccorrelate [some 1, some 1, some 1] [some 1, some 1, some 1] [0]
          false false).getD 0 0 - 1| := by
  constructor
  · have hc : crossSum (devs false [some 0, some 1]) (devs false [some 0, some 1]) 0 = 1/2 := by
      norm_num [crossSum, devs, nanmean, finiteVals, ngood, Finset.sum_range_succ,
        Finset.sum_range_zero, List.getD_cons_zero, List.getD_cons_succ,
        List.filterMap_cons, List.filterMap_nil]
    have hn : numSum (fmask [some 0, some 1]) (fmask [some 0, some 1]) 0 = 2 := by decide
    have hg : ngood [some 0, some 1] = 2 := by decide
    have hrms : rmsFactor (ngood [some 0, some 1]) (ssqDevs false [some 0, some 1]) = 1 := by
      rw [hg]
      unfold rmsFactor
      norm_num
    have hL : ccorrelate [some 0, some 1] [some 0, some 1] [0] false false = [(1 : ℝ)/2] := by
      simp [ccorrelate, hc, hn, hrms, maxNum]
    rw [hL]
    have h1 : ([(1 : ℝ)/2]).getD 0 0 = 1/2 := rfl
    rw [h1, show ((1 : ℝ)/2 - 1) = -(1/2) by norm_num, abs_neg,
      abs_of_pos (by norm_num : (0 : ℝ) < 1/2)]
    norm_num
  · have hc : crossSum (devs false [some 1, some 1, some 1])
        (devs false [some 1, some 1, some 1]) 0 = 0 := by
      norm_num [crossSum, devs, nanmean, finiteVals, ngood, Finset.sum_range_succ,
        Finset.sum_range_zero, List.getD_cons_zero, List.getD_cons_succ,
        List.filterMap_cons, List.filterMap_nil]
    have hn : numSum (fmask [some 1, some 1, some 1]) (fmask [some 1, some 1, some 1]) 0 = 3 := by
      decide
    have hL : ccorrelate [some 1, some 1, some 1] [some 1, some 1, some 1] [0]
        false false = [(0 : ℝ)] := by
      simp [ccorrelate, hc, hn, maxNum]
    rw [hL]
    have h1 : ([(0 : ℝ)]).getD 0 0 = 0 := rfl
    rw [h1, show ((0 : ℝ) - 1) = -1 by norm_num, abs_neg, abs_one]
    norm_num

theorem ssqDevs_replicate (c : ℚ) (n : ℕ) (hn : 0 < n) :
    ssqDevs false (List.replicate n (some c)) = 0 := by
  have hrep : List.replicate n (some c) = (List.replicate n c).map some := by
    simp [List.map_replicate]
  rw [hrep]
  unfold ssqDevs
  refine Finset.sum_eq_zero (fun i hi => ?_)
  have hi' : i < (List.replicate n c).length := by simpa using Finset.mem_range.mp hi
  have hmean : nanmean ((List.replicate n c).map some) = c := by
    have hnz : ((n : ℚ)) ≠ 0 := Nat.cast_ne_zero.mpr (by omega)
    simp [nanmean, finiteVals, ngood, List.sum_replicate]
    field_simp
  have hgd : (List.replicate n c).getD i 0 = c := by
    rw [List.getD_eq_getElem (List.replicate n c) 0
      (show i < (List.replicate n c).length from hi')]
    simp
  rw [devs_map_some_getD _ i hi', hgd, hmean]
  simp

/-- C8: correlating a constant (zero-RMS) sequence raises no error: the
two explicit `ValueError` guards pass, and the RMS normalisation factor of
the constant sequence is substituted by `1.0` (both when the square root
is taken and comes out zero, and when the `ngood > 2` guard holds),
so a finite result is returned. -/
theorem ccorrelate_constant_no_error (c : ℚ) (n : ℕ) (y : List Val) (lags : List ℤ)
    (h2 : 2 ≤ n) (hxy : n = y.length) :
    (ccorrelateE (List.replicate n (some c)) y lags false false).isOk = true ∧
    rmsFactor (ngood (List.replicate n (some c)))
      (ssqDevs false (List.replicate n (some c))) = 1 := by
  constructor
  · unfold ccorrelateE
    rw [if_neg (by simp [hxy]), if_neg (by simp; omega)]
    rfl
  · rw [ssqDevs_replicate c n (by omega), rmsFactor_ssq_zero]

/-- Witness for `ccorrelate_constant_no_error` at a constant sequence of
value 5 and length 2 against `y = [1.0, 2.0]` at lag 0. -/
theorem ccorrelate_constant_no_error_witness :
    2 ≤ 2 ∧ 2 = ([some 1, some 2] : List Val).length ∧
    ((ccorrelateE (List.replicate 2 (some (5 : ℚ))) [some 1, some 2] [0]
        false false).isOk = true ∧
     rmsFactor (ngood (List.replicate 2 (some (5 : ℚ))))
       (ssqDevs false (List.replicate 2 (some (5 : ℚ)))) = 1) :=
  ⟨by decide, by decide,
    ccorrelate_constant_no_error 5 2 [some 1, some 2] [0] (by decide) (by decide)⟩

/-! Scalar clamping helpers `lt`, `gt`, `limit` of rv.py (scalar case). -/

/-- `lt(x, limit)`: the lesser of `x` or `limit`. -/
def lt (x bound : ℚ) : ℚ := if x < bound then x else bound

/-- `gt(x, limit)`: the greater of `x` or `limit`. -/
def gt (x bound : ℚ) : ℚ := if x > bound then x else bound

/-- `limit(x, llimit, ulimit) = lt(gt(x, llimit), ulimit)`. -/
def limit (x llimit ulimit : ℚ) : ℚ := lt (gt x llimit) ulimit

/-! The pass-3 stability safeguard of `specxcorr` (claim C4).
`pars3`/`perror3` order is `[height, center, sigma, const]`;
`perror3` is the diagonal of the pass-3 fit covariance. -/

/-- The safeguard trigger as coded:
`if (perror3[0]>10) | (perror3[1]>10)` — element 0 (height error) or
element 1 (center error) exceeds 10. -/
def safeguardTrigger (perror3 : Fin 4 → ℚ) : Bool :=
  decide (10 < perror3 0) || decide (10 < perror3 1)

/-- The safeguard trigger as claim C4 words it: center error (element 1)
or width error (element 2) exceeds 10. -/
def safeguardTriggerClaim (perror3 : Fin 4 → ℚ) : Bool :=
  decide (10 < perror3 1) || decide (10 < perror3 2)

/-- `dlbounds3 = [0.5*estimates3[0], -10+pars3[1], 0.01,
lt(np.min(ccf_diff), lt(0, estimates3[3]-0.1))]`. -/
def dlbounds3 (estimates3 pars3 : Fin 4 → ℚ) (minccf : ℚ) : Fin 4 → ℚ :=
  ![1/2 * estimates3 0, -10 + pars3 1, 1/100, lt minccf (lt 0 (estimates3 3 - 1/10))]

/-- `dubounds3 = [1.5*estimates3[0], 10+pars3[1], 2*pars3[2],
gt(np.max(ccf_diff)*0.5, estimates3[3]+0.1)]`. -/
def dubounds3 (estimates3 pars3 : Fin 4 → ℚ) (maxccf : ℚ) : Fin 4 → ℚ :=
  ![3/2 * estimates3 0, 10 + pars3 1, 2 * pars3 2, gt (maxccf * (1/2)) (estimates3 3 + 1/10)]

/-- The returned `perror3`: replaced by the refit covariance diagonal
`dperror3` exactly when the safeguard fired, else kept. -/
def finalPerror3 (perror3 dperror3 : Fin 4 → ℚ) : Fin 4 → ℚ :=
  if safeguardTrigger perror3 then dperror3 else perror3

/-- C4 (amended): the safeguard refit is performed iff the pass-3
covariance-derived *height* error or *center* error (elements 0 and 1)
exceeds 10; when performed its center is bounded to within 10 lags of the
pass-3 center, its width is bounded above by twice the pass-3 width, and
its covariance-derived errors replace the pass-3 errors. -/
theorem safeguard_refit_spec (p3 d3 est3 pars3 : Fin 4 → ℚ) (mn mx : ℚ) :
    finalPerror3 p3 d3 = (if 10 < p3 0 ∨ 10 < p3 1 then d3 else p3) ∧
    dlbounds3 est3 pars3 mn 1 = pars3 1 - 10 ∧
    dubounds3 est3 pars3 mx 1 = pars3 1 + 10 ∧
    dubounds3 est3 pars3 mx 2 = 2 * pars3 2 := by
  refine ⟨?_, ?_, ?_, ?_⟩
  · unfold finalPerror3 safeguardTrigger
    by_cases h0 : 10 < p3 0 <;> by_cases h1 : 10 < p3 1 <;> simp [h0, h1]
  · show (-10 + pars3 1 : ℚ) = pars3 1 - 10
    ring
  · show (10 + pars3 1 : ℚ) = pars3 1 + 10
    ring
  · rfl

/-- C4 counterexample: with pass-3 errors `[0, 0, 20, 0]` (width error 20,
height and center errors 0) the claimed center-or-width trigger fires but
the coded height-or-center trigger does not: no refit is performed. -/
theorem safeguard_trigger_counterexample :
    safeguardTriggerClaim ![0, 0, 20, 0] = true ∧
    safeguardTrigger ![0, 0, 20, 0] = false ∧
    finalPerror3 ![0, 0, 20, 0] ![1, 1, 1, 1] = ![0, 0, 20, 0] := by
  refine ⟨?_, ?_, ?_⟩
  · norm_num [safeguardTriggerClaim]
  · norm_num [safeguardTrigger]
  · unfold finalPerror3
    rw [if_neg (by norm_num [safeguardTrigger])]

/-! The lag axis construction of `specxcorr`/`apxcorr` (claim C5). -/

/-- `nlag = 2*np.round(np.abs(maxlag))+1`, then `nlag += 1` if `nlag` is
even (for an integer `maxlag` this never fires since `2*maxlag+1` is
odd). -/
def nlagOf (maxlag : ℕ) : ℕ :=
  let n := 2 * maxlag + 1
  if n % 2 = 0 then n + 1 else n

/-- `minlag = -nlag/2; lag = np.arange(nlag)*dlag + minlag` with
`dlag = 1`.  `-nlag/2` is Python-3 float division of the odd `nlag`,
modelled exactly as rational division. -/
def lagAxis (maxlag : ℕ) : List ℚ :=
  let nlag := nlagOf maxlag
  let dlag : ℚ := 1
  let minlag : ℚ := -(nlag : ℚ) / 2
  (List.range nlag).map (fun k => (k : ℚ) * dlag + minlag)

/-- C5: evaluating the coded lag-axis construction at `maxlag = 3`.  The
axis has the claimed odd length `2*maxlag+1 = 7` with spacing 1, but its
values are the half-integers `-3.5 ... 2.5`: `-7/2` is a lag value whose
negation `7/2` is not in the axis (so the axis is not symmetric about
zero), and `-7/2` is not an integer — both contradicting the claim, which
is what the intended integer division `-nlag//2` would have produced. -/
theorem lagAxis_counterexample :
    lagAxis 3 = [-7/2, -5/2, -3/2, -1/2, 1/2, 3/2, 5/2] ∧
    (lagAxis 3).length = 7 ∧
    ((-7 : ℚ)/2) ∈ lagAxis 3 ∧
    ((7 : ℚ)/2) ∉ lagAxis 3 ∧
    ¬ (∃ z : ℤ, ((-7 : ℚ)/2) = (z : ℚ)) := by
  have hax : lagAxis 3 = [-7/2, -5/2, -3/2, -1/2, 1/2, 3/2, 5/2] := by
    norm_num [lagAxis, nlagOf, List.range_succ]
  refine ⟨hax, by rw [hax]; rfl, by rw [hax]; norm_num, by rw [hax]; norm_num, ?_⟩
  rintro ⟨z, hz⟩
  have h2 : ((2 * z : ℤ) : ℚ) = ((-7 : ℤ) : ℚ) := by
    push_cast
    linarith [hz.symm]
  have h3 : (2 * z : ℤ) = -7 := by exact_mod_cast h2
  omega

/-! The two insufficient-bins checks of `normspec` (claim C9).  The binned
percentile statistics themselves come from the external `bindata` module,
so the per-bin statistic vectors of the two passes are inputs here; a
non-finite (NaN) bin statistic is `none`. -/

/-- The raise logic of `normspec`: after the first binning,
`if ngdbin < ncorder+1: raise`; otherwise after the second binning,
`if ngdbin2 < ncorder+1: raise`; otherwise no raise for this reason. -/
def normspecCheck (ncorder : ℕ) (ybin ybin2 : List Val) : Except String Unit :=
  if ngood ybin < ncorder + 1 then
    .error "Not enough good flux points to fit the continuum"
  else if ngood ybin2 < ncorder + 1 then
    .error "Not enough good flux points to fit the continuum"
  else
    .ok ()

/-- C9: `normspec` raises for insufficient data exactly when fewer than
`ncorder+1` bins have finite percentile statistics at the first or at the
second pass. -/
theorem normspec_raises_iff (ncorder : ℕ) (ybin ybin2 : List Val) :
    (normspecCheck ncorder ybin ybin2).isOk = false ↔
      (ngood ybin < ncorder + 1 ∨ ngood ybin2 < ncorder + 1) := by
  unfold normspecCheck
  by_cases h1 : ngood ybin < ncorder + 1 <;> by_cases h2 : ngood ybin2 < ncorder + 1 <;>
    simp [h1, h2, Except.isOk, Except.toBool]

/-! Frame effects (claim C10).  Python arrays are mutable buffers; we model
the buffer store as a map from references to contents.  `copy()` allocates
a fresh reference; in-place element assignment writes to the buffer the
variable is bound to.  The embeddings below replay, write by write, the
buffer operations of `ccorrelate`'s input preprocessing (rv.py lines
554-573) and of `specxcorr`'s bad-pixel masking step (lines 1034-1054),
recording for each assignment whether its target is a caller buffer or a
fresh copy, exactly as in the source. -/

/-- A store of array buffers addressed by ℕ references. -/
def Heap := ℕ → List Val

/-- Write buffer `r`. -/
def hset (h : Heap) (r : ℕ) (v : List Val) : Heap :=
  Function.update h r v

/-- `buf[mask] = 0.0` where `mask = (isfinite(orig) == False)`: zero the
entries of `buf` at the positions where `orig` is non-finite. -/
def zeroWhereNonfinite (orig buf : List Val) : List Val :=
  List.zipWith (fun o b => match o with
    | none => some 0
    | some _ => b) orig buf

/-- Read through a write to a different reference. -/
theorem hset_read_ne (h : Heap) (r r' : ℕ) (v : List Val) (hne : r' ≠ r) :
    hset h r v r' = h r' := by
  unfold hset
  exact Function.update_noteq hne v h

/-- Caller buffers of `ccorrelate`: `0 = x`, `1 = y`, `2 = yerr`. -/
def ccHeapInit (x y yerr : List Val) : Heap := fun r =>
  if r = 0 then x else if r = 1 then y else if r = 2 then yerr else []

/-- `xd = x.copy() - xmn` (plain `x.copy()` when `nomean`): allocates the
fresh buffer `3`, reading the caller buffer `0`. -/
def ccHeapA (x y yerr : List Val) (nomean : Bool) : Heap :=
  let h := ccHeapInit x y yerr
  hset h 3 (if nomean then h 0 else (h 0).map (Option.map (fun a => a - nanmean (h 0))))

/-- `yd = y.copy() - ymn`: allocates the fresh buffer `4`. -/
def ccHeapB (x y yerr : List Val) (nomean : Bool) : Heap :=
  let h := ccHeapA x y yerr nomean
  hset h 4 (if nomean then h 1 else (h 1).map (Option.map (fun a => a - nanmean (h 1))))

/-- `yerr2 = yerr.copy()`: allocates the fresh buffer `5`. -/
def ccHeapC (x y yerr : List Val) (nomean : Bool) : Heap :=
  let h := ccHeapB x y yerr nomean
  hset h 5 (h 2)

/-- `if nbdx > 0: xd[(fx==False)] = 0.0` — a masked write to buffer `3`
(the copy), guarded as in the source. -/
def ccHeapD (x y yerr : List Val) (nomean : Bool) : Heap :=
  let h := ccHeapC x y yerr nomean
  if (h 0).any (fun v => v.isNone) then hset h 3 (zeroWhereNonfinite (h 0) (h 3)) else h

/-- `if nbdy > 0: yd[(fy==False)] = 0.0; yerr2[(fy==False)] = 0.0` —
masked writes to the copies `4` and `5`.  The resulting store is the final
state of `ccorrelate`'s input preprocessing (rv.py lines 554-573). -/
def ccorrelateHeap (x y yerr : List Val) (nomean : Bool) : Heap :=
  let h := ccHeapD x y yerr nomean
  if (h 1).any (fun v => v.isNone) then
    hset (hset h 4 (zeroWhereNonfinite (h 1) (h 4))) 5 (zeroWhereNonfinite (h 1) (h 5))
  else h

theorem ccHeapA_read (x y yerr : List Val) (nomean : Bool) (r : ℕ) (hr : r ≤ 2) :
    ccHeapA x y yerr nomean r = ccHeapInit x y yerr r :=
  hset_read_ne _ _ _ _ (by omega)

theorem ccHeapB_read (x y yerr : List Val) (nomean : Bool) (r : ℕ) (hr : r ≤ 2) :
    ccHeapB x y yerr nomean r = ccHeapA x y yerr nomean r :=
  hset_read_ne _ _ _ _ (by omega)

theorem ccHeapC_read (x y yerr : List Val) (nomean : Bool) (r : ℕ) (hr : r ≤ 2) :
    ccHeapC x y yerr nomean r = ccHeapB x y yerr nomean r :=
  hset_read_ne _ _ _ _ (by omega)

theorem ccHeapD_read (x y yerr : List Val) (nomean : Bool) (r : ℕ) (hr : r ≤ 2) :
    ccHeapD x y yerr nomean r = ccHeapC x y yerr nomean r := by
  unfold ccHeapD
  split_ifs
  · exact hset_read_ne _ _ _ _ (by omega)
  · rfl

theorem ccorrelateHeap_read (x y yerr : List Val) (nomean : Bool) (r : ℕ) (hr : r ≤ 2) :
    ccorrelateHeap x y yerr nomean r = ccHeapD x y yerr nomean r := by
  unfold ccorrelateHeap
  split_ifs
  · rw [hset_read_ne _ _ _ _ (by omega : r ≠ 5)]
    exact hset_read_ne _ _ _ _ (by omega)
  · rfl

/-- Is a sample a finite value below 0.01 (the bad-pixel threshold)? -/
def belowThresh (v : Val) : Bool :=
  match v with
  | some a => decide (a < 1/100)
  | none => false

/-- `spec[spec < 0.01] = np.nan`: finite entries below the threshold become
non-finite; NaN entries compare false and stay as they are. -/
def maskBelow (buf : List Val) : List Val :=
  buf.map (fun v => match v with
    | some a => if a < 1/100 then none else some a
    | none => none)

/-- Caller buffers of `specxcorr`: `0 = wave`, `1 = obsspec`,
`2 = obserr`, `3 = tempspec`. -/
def scHeapInit (wave obsspec obserr tempspec : List Val) : Heap := fun r =>
  if r = 0 then wave else if r = 1 then obsspec else if r = 2 then obserr
  else if r = 3 then tempspec else []

/-- `wobs = wave.copy(); spec = obsspec.copy(); err = obserr.copy();
template = tempspec.copy()`: four fresh buffers `4`-`7`. -/
def scHeapCopies (wave obsspec obserr tempspec : List Val) : Heap :=
  let h := scHeapInit wave obsspec obserr tempspec
  hset (hset (hset (hset h 4 (h 0)) 5 (h 1)) 6 (h 2)) 7 (h 3)

/-- `if nsfix > 0: spec[sfix] = np.nan` — a masked write to the copy `5`. -/
def scHeapMaskSpec (wave obsspec obserr tempspec : List Val) : Heap :=
  let h := scHeapCopies wave obsspec obserr tempspec
  if (h 5).any belowThresh then hset h 5 (maskBelow (h 5)) else h

/-- `if ntfix > 0: template[tfix] = np.nan` — a masked write to the copy
`7`.  The resulting store is the final state of `specxcorr`'s bad-pixel
masking step (rv.py lines 1034-1054). -/
def specxcorrMaskHeap (wave obsspec obserr tempspec : List Val) : Heap :=
  let h := scHeapMaskSpec wave obsspec obserr tempspec
  if (h 7).any belowThresh then hset h 7 (maskBelow (h 7)) else h

theorem scHeapCopies_read (wave obsspec obserr tempspec : List Val) (r : ℕ) (hr : r ≤ 3) :
    scHeapCopies wave obsspec obserr tempspec r =
      scHeapInit wave obsspec obserr tempspec r := by
  unfold scHeapCopies
  rw [hset_read_ne _ _ _ _ (by omega : r ≠ 7), hset_read_ne _ _ _ _ (by omega : r ≠ 6),
    hset_read_ne _ _ _ _ (by omega : r ≠ 5), hset_read_ne _ _ _ _ (by omega : r ≠ 4)]

theorem scHeapMaskSpec_read (wave obsspec obserr tempspec : List Val) (r : ℕ) (hr : r ≤ 3) :
    scHeapMaskSpec wave obsspec obserr tempspec r =
      scHeapCopies wave obsspec obserr tempspec r := by
  unfold scHeapMaskSpec
  split_ifs
  · exact hset_read_ne _ _ _ _ (by omega)
  · rfl

theorem specxcorrMaskHeap_read (wave obsspec obserr tempspec : List Val) (r : ℕ)
    (hr : r ≤ 3) :
    specxcorrMaskHeap wave obsspec obserr tempspec r =
      scHeapMaskSpec wave obsspec obserr tempspec r := by
  unfold specxcorrMaskHeap
  split_ifs
  · exact hset_read_ne _ _ _ _ (by omega)
  · rfl

/-- C10: neither the correlator's preprocessing nor the orchestrator's
bad-pixel masking step writes to a caller buffer: after replaying every
buffer write of either fragment, the caller's arrays (observed flux,
template flux, error, wavelength) hold exactly their initial values; all
masking, mean removal and non-finite zeroing targeted private copies. -/
theorem inputs_never_mutated (x y yerr wave obsspec obserr tempspec : List Val)
    (nomean : Bool) :
    (ccorrelateHeap x y yerr nomean 0 = x ∧
     ccorrelateHeap x y yerr nomean 1 = y ∧
     ccorrelateHeap x y yerr nomean 2 = yerr) ∧
    (specxcorrMaskHeap wave obsspec obserr tempspec 0 = wave ∧
     specxcorrMaskHeap wave obsspec obserr tempspec 1 = obsspec ∧
     specxcorrMaskHeap wave obsspec obserr tempspec 2 = obserr ∧
     specxcorrMaskHeap wave obsspec obserr tempspec 3 = tempspec) := by
  constructor
  · refine ⟨?_, ?_, ?_⟩ <;>
    · rw [ccorrelateHeap_read _ _ _ _ _ (by omega), ccHeapD_read _ _ _ _ _ (by omega),
        ccHeapC_read _ _ _ _ _ (by omega), ccHeapB_read _ _ _ _ _ (by omega),
        ccHeapA_read _ _ _ _ _ (by omega)]
      rfl
  · refine ⟨?_, ?_, ?_, ?_⟩ <;>
    · rw [specxcorrMaskHeap_read _ _ _ _ _ (by omega),
        scHeapMaskSpec_read _ _ _ _ _ (by omega), scHeapCopies_read _ _ _ _ _ (by omega)]
      rfl

/-! The pixel-shift → velocity conversion (claim C3), as inlined in
`specxcorr` (rv.py lines 1184-1192) and `apxcorr` (lines 1476-1484). -/

/-- `slope(array) = array[1:n] - array[0:n-1]`. -/
def slope (a : List ℝ) : List ℝ :=
  List.zipWith (fun x1 x2 => x2 - x1) a a.tail

/-- `np.median`: sort ascending, take the middle element (odd length) or
the mean of the two middle elements (even length). -/
noncomputable def median (a : List ℝ) : ℝ :=
  let s := a.mergeSort (fun x y => decide (x ≤ y))
  if a.length % 2 = 1 then s.getD (a.length / 2) 0
  else (s.getD (a.length / 2 - 1) 0 + s.getD (a.length / 2) 0) / 2

/-- `dwlog = np.median(slope(np.log10(wave)))`. -/
noncomputable def dwlog (wave : List ℝ) : ℝ :=
  median (slope (wave.map (Real.logb 10)))

/-- `cspeed = 2.99792458e5` km/s. -/
noncomputable def cspeed : ℝ := 299792.458

/-- `vrel = (10**(xshift*dwlog) - 1) * cspeed` (both functions). -/
noncomputable def vrel (xshift : ℝ) (wave : List ℝ) : ℝ :=
  ((10 : ℝ) ^ (xshift * dwlog wave) - 1) * cspeed

/-- `specxcorr`: `vrelerr = np.log(10.0) * 10**(xshift*dwlog) * dwlog *
cspeed * xshifterr` (`np.log` is the natural logarithm). -/
noncomputable def specxcorr_vrelerr (xshift xshifterr : ℝ) (wave : List ℝ) : ℝ :=
  Real.log 10 * (10 : ℝ) ^ (xshift * dwlog wave) * dwlog wave * cspeed * xshifterr

/-- `apxcorr`: `vrelerr = np.log10(10.0) * 10**(xshift*dwlog) * dwlog *
cspeed * xshifterr` — the base-10 logarithm of 10, which is 1. -/
noncomputable def apxcorr_vrelerr (xshift xshifterr : ℝ) (wave : List ℝ) : ℝ :=
  Real.logb 10 10 * (10 : ℝ) ^ (xshift * dwlog wave) * dwlog wave * cspeed * xshifterr

/-- The velocity error exactly as claim C3 words it:
`|ln(10) * 10^(shift*dwlog) * dwlog * c| * shift_error`. -/
noncomputable def claimC3_vrelerr (xshift xshifterr : ℝ) (wave : List ℝ) : ℝ :=
  |Real.log 10 * (10 : ℝ) ^ (xshift * dwlog wave) * dwlog wave * cspeed| * xshifterr

/-- C3: on the uniform log-grid wavelength array `[1, 10]` (so `dwlog = 1`):
a shift of 0 converts to velocity exactly 0; `specxcorr`'s error formula
equals the claimed `|ln(10)·10^(s·dwlog)·dwlog·c|·e`; but `apxcorr`'s error
formula does not — its `np.log10(10.0)` factor is `1`, not `ln(10)`, so at
shift 1 with shift error 1 it returns `10·c` instead of the claimed
`ln(10)·10·c`. -/
theorem velocity_converter_c3 :
    dwlog [1, 10] = 1 ∧
    vrel 0 [1, 10] = 0 ∧
    specxcorr_vrelerr 1 1 [1, 10] = claimC3_vrelerr 1 1 [1, 10] ∧
    apxcorr_vrelerr 1 1 [1, 10] ≠ claimC3_vrelerr 1 1 [1, 10] := by
  have hlog10 : Real.logb 10 10 = 1 := Real.logb_self_eq_one (by norm_num)
  have hdw : dwlog [1, 10] = 1 := by
    unfold dwlog
    have hmap : (([1, 10] : List ℝ).map (Real.logb 10)) = [0, 1] := by
      simp [Real.logb_one, hlog10]
    rw [hmap]
    have hsl : slope [(0 : ℝ), 1] = [1] := by
      simp [slope]
    rw [hsl]
    simp [median, List.mergeSort]
  have hlogpos : (0 : ℝ) < Real.log 10 := Real.log_pos (by norm_num)
  have hcpos : (0 : ℝ) < cspeed := by norm_num [cspeed]
  have habs : |Real.log 10 * (10 : ℝ) ^ ((1 : ℝ) * dwlog [1, 10]) * dwlog [1, 10] * cspeed|
      = Real.log 10 * 10 * cspeed := by
    rw [hdw]
    simp only [mul_one, one_mul]
    rw [Real.rpow_one]
    exact abs_of_pos (by positivity)
  refine ⟨hdw, ?_, ?_, ?_⟩
  · unfold vrel
    rw [hdw, mul_one, Real.rpow_zero]
    ring
  · unfold specxcorr_vrelerr claimC3_vrelerr
    rw [habs, hdw]
    simp only [mul_one, one_mul]
    rw [Real.rpow_one]
  · unfold apxcorr_vrelerr claimC3_vrelerr
    rw [habs, hlog10, hdw]
    simp only [mul_one, one_mul]
    rw [Real.rpow_one]
    have hlog1 : (1 : ℝ) < Real.log 10 := by
      have h1 : Real.exp 1 < 10 := by
        have := Real.exp_one_lt_d9
        nlinarith
      calc (1 : ℝ) = Real.log (Real.exp 1) := (Real.log_exp 1).symm
        _ < Real.log 10 := Real.log_lt_log (Real.exp_pos 1) h1
    intro heq
    nlinarith [heq, hlog1, hcpos]

/-! The Gaussian models and `gaussfit`'s model selection (claim C2). -/

/-- `gaussian(x, amp, cen, sig, const)`: the point-sampled Gaussian
`(amp / (sqrt(2 pi) sig)) * exp(-(x-cen)^2 / (2 sig^2)) + const`. -/
noncomputable def gaussian (x amp cen sig const : ℝ) : ℝ :=
  amp / (Real.sqrt (2 * Real.pi) * sig) * Real.exp (-(x - cen) ^ 2 / (2 * sig ^ 2)) + const

/-- The error function, as the source comment defines it:
`ERF = 2/sqrt(pi) * Integral(t=0..z) exp(-t^2) dt` (scipy.special.erf is
an external collaborator). -/
noncomputable def erf (z : ℝ) : ℝ :=
  2 / Real.sqrt Real.pi * ∫ t in (0 : ℝ)..z, Real.exp (-t ^ 2)

/-- `gaussbin(x, amp, cen, sig, const, dx)`: the Gaussian integrated over
each pixel bin of width `dx` via the error-function form. -/
noncomputable def gaussbin (x amp cen sig const dx : ℝ) : ℝ :=
  let xcen := x - cen
  let x1cen := xcen - 0.5 * dx
  let x2cen := xcen + 0.5 * dx
  let t1cen := x1cen / (Real.sqrt 2 * sig)
  let t2cen := x2cen / (Real.sqrt 2 * sig)
  amp * Real.sqrt 2 * sig * Real.sqrt Real.pi / 2 * (erf t2cen - erf t1cen) + const

/-- `gaussfit`'s model selection: `func = gaussian; if binned is True:
func = gaussbin` (with the default bin width `dx = 1.0`). -/
noncomputable def gaussfitFunc (binned : Bool) : ℝ → ℝ → ℝ → ℝ → ℝ → ℝ :=
  fun x amp cen sig const =>
    if binned then gaussbin x amp cen sig const 1 else gaussian x amp cen sig const

/-- The `binned` argument at `specxcorr`'s five `gaussfit` call sites
(passes 0-3 and the stability-safeguard refit, rv.py lines 1125, 1136,
1149, 1162, 1170): none passes `binned`, so all use the default `False`. -/
def specxcorrFitBinnedArgs : List Bool := [false, false, false, false, false]

/-- The `binned` argument at `apxcorr`'s four `gaussfit` call sites
(rv.py lines 1424, 1438, 1451, 1462): all pass `binned=True`. -/
def apxcorrFitBinnedArgs : List Bool := [true, true, true, true]

/-- C2 (amended): `apxcorr`'s peak fits all use the pixel-binned Gaussian
(`gaussfit` maps `binned=True` to `gaussbin` with unit bin width), but
`specxcorr`'s passes 0-3 and safeguard refit all leave `binned` at its
default `False`, so they use the point-sampled `gaussian` model. -/
theorem gaussfit_binned_usage :
    (specxcorrFitBinnedArgs.all (fun b => !b)) = true ∧
    (apxcorrFitBinnedArgs.all (fun b => b)) = true ∧
    gaussfitFunc false = gaussian ∧
    gaussfitFunc true = (fun x amp cen sig const => gaussbin x amp cen sig const 1) := by
  refine ⟨by decide, by decide, rfl, rfl⟩

/-- C2 counterexample: the model used by `specxcorr`'s pass-0 fit
(`binned` defaulted to `False`) is not the pixel-binned model: at
`x = cen = 0`, `amp = sig = 1`, `const = 0` the point-sampled Gaussian is
`1/sqrt(2 pi) < 1/2` while the binned Gaussian exceeds `exp(-1/8) > 1/2`. -/
theorem specxcorr_unbinned_counterexample :
    specxcorrFitBinnedArgs.getD 0 true = false ∧
    gaussfitFunc false 0 1 0 1 0 < gaussfitFunc true 0 1 0 1 0 := by
  have hsqrt2pos : (0 : ℝ) < Real.sqrt 2 := Real.sqrt_pos.mpr (by norm_num)
  have hsqrtpipos : (0 : ℝ) < Real.sqrt Real.pi := Real.sqrt_pos.mpr Real.pi_pos
  have hcont : Continuous (fun t : ℝ => Real.exp (-t ^ 2)) :=
    Real.continuous_exp.comp ((continuous_pow 2).neg)
  constructor
  · rfl
  show gaussian 0 1 0 1 0 < gaussbin 0 1 0 1 0 1
  -- the point-sampled value is below 1/2
  have hL : gaussian 0 1 0 1 0 = 1 / Real.sqrt (2 * Real.pi) := by
    simp [gaussian, Real.exp_zero]
  have hLlt : gaussian 0 1 0 1 0 < 1/2 := by
    rw [hL]
    have h2 : (2 : ℝ) < Real.sqrt (2 * Real.pi) := by
      rw [Real.lt_sqrt (by norm_num)]
      nlinarith [Real.pi_gt_three]
    exact one_div_lt_one_div_of_lt (by norm_num) h2
  -- the binned value in terms of the central integral
  have hR : gaussbin 0 1 0 1 0 1 =
      Real.sqrt 2 * Real.sqrt Real.pi / 2 *
        (erf (0.5 / Real.sqrt 2) - erf (-(0.5 / Real.sqrt 2))) := by
    simp only [gaussbin]
    norm_num [neg_div]
  have herf : erf (0.5 / Real.sqrt 2) - erf (-(0.5 / Real.sqrt 2)) =
      2 / Real.sqrt Real.pi *
        ∫ t in (-(0.5 / Real.sqrt 2))..(0.5 / Real.sqrt 2), Real.exp (-t ^ 2) := by
    unfold erf
    rw [← mul_sub, intervalIntegral.integral_interval_sub_left
      (hcont.intervalIntegrable _ _) (hcont.intervalIntegrable _ _)]
  -- lower bound for the central integral by the constant exp(-1/8)
  have hapos : (0 : ℝ) < 0.5 / Real.sqrt 2 := by positivity
  have hasq : (0.5 / Real.sqrt 2) ^ 2 = 1/8 := by
    rw [div_pow, Real.sq_sqrt (by norm_num : (0 : ℝ) ≤ 2)]
    norm_num
  have hbound : (2 * (0.5 / Real.sqrt 2)) * Real.exp (-(1/8)) ≤
      ∫ t in (-(0.5 / Real.sqrt 2))..(0.5 / Real.sqrt 2), Real.exp (-t ^ 2) := by
    have hmono : ∀ t ∈ Set.Icc (-(0.5 / Real.sqrt 2)) (0.5 / Real.sqrt 2),
        Real.exp (-(1/8)) ≤ Real.exp (-t ^ 2) := by
      intro t ht
      apply Real.exp_le_exp.mpr
      have h1 : t ^ 2 ≤ (0.5 / Real.sqrt 2) ^ 2 := sq_le_sq' ht.1 ht.2
      rw [hasq] at h1
      linarith
    calc (2 * (0.5 / Real.sqrt 2)) * Real.exp (-(1/8))
        = ∫ _t in (-(0.5 / Real.sqrt 2))..(0.5 / Real.sqrt 2), Real.exp (-(1/8)) := by
          rw [intervalIntegral.integral_const]
          simp
          ring
      _ ≤ ∫ t in (-(0.5 / Real.sqrt 2))..(0.5 / Real.sqrt 2), Real.exp (-t ^ 2) :=
          intervalIntegral.integral_mono_on (by linarith)
            intervalIntegrable_const (hcont.intervalIntegrable _ _) hmono
  -- exp(-1/8) exceeds 1/2
  have hexp : (1 : ℝ)/2 < Real.exp (-(1/8)) := by
    have h8 : Real.exp ((1 : ℝ)/8) < 2 := by
      have hlt : (1 : ℝ)/8 < Real.log 2 := by nlinarith [Real.log_two_gt_d9]
      calc Real.exp ((1 : ℝ)/8) < Real.exp (Real.log 2) := Real.exp_lt_exp.mpr hlt
        _ = 2 := Real.exp_log (by norm_num)
    have hinv : Real.exp (-(1/8) : ℝ) = (Real.exp ((1 : ℝ)/8))⁻¹ := by
      rw [← Real.exp_neg]
    rw [hinv]
    rw [show (1 : ℝ)/2 = 2⁻¹ by norm_num]
    exact inv_lt_inv_of_lt (Real.exp_pos _) h8
  -- assemble
  have hchain : (1 : ℝ)/2 < gaussbin 0 1 0 1 0 1 := by
    rw [hR, herf]
    have hsimpl : Real.sqrt 2 * Real.sqrt Real.pi / 2 *
        (2 / Real.sqrt Real.pi *
          ∫ t in (-(0.5 / Real.sqrt 2))..(0.5 / Real.sqrt 2), Real.exp (-t ^ 2)) =
        Real.sqrt 2 *
          ∫ t in (-(0.5 / Real.sqrt 2))..(0.5 / Real.sqrt 2), Real.exp (-t ^ 2) := by
      field_simp
      ring
    rw [hsimpl]
    have h1 : Real.sqrt 2 * ((2 * (0.5 / Real.sqrt 2)) * Real.exp (-(1/8))) =
        Real.exp (-(1/8)) := by
      field_simp
      norm_num
    calc (1 : ℝ)/2 < Real.exp (-(1/8)) := hexp
      _ = Real.sqrt 2 * ((2 * (0.5 / Real.sqrt 2)) * Real.exp (-(1/8))) := h1.symm
      _ ≤ Real.sqrt 2 *
            ∫ t in (-(0.5 / Real.sqrt 2))..(0.5 / Real.sqrt 2), Real.exp (-t ^ 2) :=
          mul_le_mul_of_nonneg_left hbound (le_of_lt hsqrt2pos)
  exact lt_trans hLlt hchain

end Radvel
